import Mathlib

/-!
Shallow embedding of the cross-chain verifier / transaction builder
(`smartcontract/service/native/cross_chain_manager/btc/btc.go`) and the
governance node manager (`native/service/governance/node_manager/node_manager.go`)
of the `poly` repository, together with theorems settling the spec claims.

Machine integers are modelled as `Nat` (unsigned) or `Int` (signed) with
explicit reduction modulo `2^32` / `2^64` where the Go code performs
wrapping `uint32` / `uint64` / `int64` arithmetic.
-/

/-! ## Machine-integer helpers -/

/-- Go `uint32` subtraction `a - b` (wrapping), for operands already below `2^32`. -/
def u32sub (a b : Nat) : Nat :=
  (a % 2 ^ 32 + 2 ^ 32 - b % 2 ^ 32) % 2 ^ 32

/-- Go `uint32(x - 1)` where `x` is a `uint64`: `uint64` wrapping decrement,
then truncation to 32 bits.  Used for `uint32(sideChain.BlocksToWait-1)`. -/
def u32OfU64dec (x : Nat) : Nat :=
  ((x % 2 ^ 64 + 2 ^ 64 - 1) % 2 ^ 64) % 2 ^ 32

/-- Go `uint64` addition (wrapping). -/
def u64add (a b : Nat) : Nat := (a + b) % 2 ^ 64

/-- Go `uint64` subtraction `a - b` (wrapping), total on `Nat`. -/
def u64sub (a b : Nat) : Nat :=
  (a % 2 ^ 64 + 2 ^ 64 - b % 2 ^ 64) % 2 ^ 64

/-- Reduce an integer into the signed 64-bit range `[-2^63, 2^63)`,
the wrap-around behaviour of Go `int64` arithmetic. -/
def i64wrap (z : Int) : Int := (z + 2 ^ 63) % 2 ^ 64 - 2 ^ 63

theorem i64wrap_emod (z : Int) : i64wrap z % 2 ^ 64 = z % 2 ^ 64 := by
  unfold i64wrap
  omega

theorem i64wrap_add_left (x a : Int) : i64wrap (i64wrap x + a) = i64wrap (x + a) := by
  have h := i64wrap_emod x
  unfold i64wrap at *
  omega

/-! ## Cross-chain verifier model (`verifyBtcTx`) -/

/-- Decoded Bitcoin transaction; only the txid is relevant to the verifier's
control flow (output checks are abstracted into the environment). -/
structure BtcTx where
  txid : List Nat
deriving DecidableEq, Repr

/-- Decoded merkle-block proof message (`wire_bch.MsgMerkleBlock`). -/
structure MerkleMsg where
  hashes : List (List Nat)
deriving DecidableEq, Repr

/-- Block header fetched from the SPV oracle (`GetHeaderFromSpv`). -/
structure SpvHeader where
  merkleRoot : List Nat
deriving DecidableEq, Repr

/-- Record from `side_chain_manager` for the source chain. -/
structure SideChain where
  blocksToWait : Nat
deriving DecidableEq, Repr

/-- Resolved `targetChainParam` (destination chain id, address, value). -/
structure TargetChainParam where
  chainId : Nat
  addr : String
  value : Int
deriving DecidableEq, Repr

/-- Per-call environment of `verifyBtcTx`: results of the oracle queries and
of the deterministic codec functions applied to the call's fixed
`(proof, tx)` byte inputs.  `none` models the corresponding Go error return. -/
structure VerifyEnv where
  besth : Option Nat
  sideChain : Option SideChain
  decodedTx : Option BtcTx
  decodedProof : Option MerkleMsg
  outputsOk : Bool
  resolved : Option TargetChainParam
  rootCalc : Option (List Nat)
  badTreeFlag : Bool
  matchesLen : Nat
  header : Option SpvHeader
deriving DecidableEq, Repr

/-- Error kinds of `verifyBtcTx`, one per distinct `fmt.Errorf` return. -/
inductive VErr where
  | oracleErr
  | sideChainErr
  | notConfirmed
  | decodeTxErr
  | decodeProofErr
  | txAbsent
  | alreadyExist
  | wrongOutputs
  | resolveErr
  | badTree
  | headerErr
  | rootMismatch
deriving DecidableEq, Repr

/-- The contract-scoped key-value store (`native.CacheDB`) restricted to byte
keys; `none` models an absent key (Go `nil`). -/
def Store : Type := List Nat → Option (List Nat)

/-- Model of `CacheDB.Put`. -/
def storePut (s : Store) (k v : List Nat) : Store :=
  fun k' => if k' = k then some v else s k'

/-- Bytes of `utils.CrossChainManagerContractAddress` (opaque content). -/
def crossChainAddr : List Nat := [99, 99, 109]

/-- Decoded `inf.Key_prefix_BTC` tag bytes (opaque byte content). -/
def btcKeyTag : List Nat := [98, 116, 99]

/-- The replay-guard key `utils.ConcatKey(contract, tagBytes, txid)`. -/
def replayKey (txid : List Nat) : List Nat :=
  crossChainAddr ++ btcKeyTag ++ txid

/-- Steps of `verifyBtcTx` after the confirmation-depth gate: decode the
transaction and the proof, check txid membership, the replay guard, the
output shape, resolve the target parameters, validate the merkle tree and
compare the recomputed root with the trusted header; on success write the
single-byte sentinel `[1]` under the replay key. -/
def verifyAfterGate (env : VerifyEnv) (store : Store) :
    Except VErr TargetChainParam × Store :=
  match env.decodedTx with
  | none => (.error .decodeTxErr, store)
  | some tx =>
    match env.decodedProof with
    | none => (.error .decodeProofErr, store)
    | some mb =>
      if mb.hashes.any (fun hsh => hsh = tx.txid) then
        if store (replayKey tx.txid) = some [1] then
          (.error .alreadyExist, store)
        else
          if env.outputsOk then
            match env.resolved with
            | none => (.error .resolveErr, store)
            | some param =>
              if env.rootCalc = none ∨ env.badTreeFlag ∨ env.matchesLen = 0 then
                (.error .badTree, store)
              else
                match env.header with
                | none => (.error .headerErr, store)
                | some hd =>
                  if env.rootCalc = some hd.merkleRoot then
                    (.ok param, storePut store (replayKey tx.txid) [1])
                  else
                    (.error .rootMismatch, store)
          else
            (.error .wrongOutputs, store)
      else
        (.error .txAbsent, store)

/-- Model of `verifyBtcTx`: fetch the oracle height and the side-chain record, apply
the `uint32` confirmation-depth gate `besth - height < uint32(BlocksToWait-1)`,
then run the remaining validations. -/
def verifyBtcTx (env : VerifyEnv) (height : Nat) (store : Store) :
    Except VErr TargetChainParam × Store :=
  match env.besth with
  | none => (.error .oracleErr, store)
  | some bh =>
    match env.sideChain with
    | none => (.error .sideChainErr, store)
    | some sc =>
      if u32sub bh height < u32OfU64dec sc.blocksToWait then
        (.error .notConfirmed, store)
      else
        verifyAfterGate env store

theorem verifyAfterGate_shape (env : VerifyEnv) (store : Store) :
    ((∃ e, (verifyAfterGate env store).1 = .error e) ∧
      (verifyAfterGate env store).2 = store) ∨
    (∃ p tx, env.decodedTx = some tx ∧
      verifyAfterGate env store = (.ok p, storePut store (replayKey tx.txid) [1])) := by
  rcases htx : env.decodedTx with _ | tx <;>
    rcases hpf : env.decodedProof with _ | mb <;>
    rcases hres : env.resolved with _ | param <;>
    rcases hhd : env.header with _ | hd <;>
    simp only [verifyAfterGate, htx, hpf, hres, hhd] <;>
    (try split_ifs) <;>
    first
      | (left; refine ⟨⟨_, rfl⟩, ?_⟩; trivial)
      | (right; exact ⟨param, tx, rfl, rfl⟩)

theorem verifyAfterGate_error_store (env : VerifyEnv) (store : Store) (e : VErr)
    (h : (verifyAfterGate env store).1 = .error e) :
    (verifyAfterGate env store).2 = store := by
  rcases verifyAfterGate_shape env store with ⟨_, hst⟩ | ⟨p, tx, _, hrun⟩
  · exact hst
  · rw [hrun] at h
    exact absurd h (by simp)

theorem verifyAfterGate_ne_notConfirmed (env : VerifyEnv) (store : Store) :
    (verifyAfterGate env store).1 ≠ .error .notConfirmed := by
  rcases htx : env.decodedTx with _ | tx <;>
    rcases hpf : env.decodedProof with _ | mb <;>
    rcases hres : env.resolved with _ | param <;>
    rcases hhd : env.header with _ | hd <;>
    simp only [verifyAfterGate, htx, hpf, hres, hhd] <;>
    (try split_ifs) <;> simp

theorem verifyAfterGate_ok (env : VerifyEnv) (store : Store)
    (p : TargetChainParam) (s' : Store)
    (h : verifyAfterGate env store = (.ok p, s')) :
    ∃ tx mb, env.decodedTx = some tx ∧ env.decodedProof = some mb ∧
      (mb.hashes.any fun hsh => hsh = tx.txid) = true ∧
      store (replayKey tx.txid) ≠ some [1] ∧
      s' = storePut store (replayKey tx.txid) [1] := by
  rcases htx : env.decodedTx with _ | tx <;>
    rcases hpf : env.decodedProof with _ | mb <;>
    rcases hres : env.resolved with _ | param <;>
    rcases hhd : env.header with _ | hd <;>
    simp only [verifyAfterGate, htx, hpf, hres, hhd] at h <;>
    (try split_ifs at h) <;>
    first
      | (refine ⟨tx, mb, rfl, rfl, ?_, ?_, ?_⟩ <;>
          first
            | assumption
            | (injection h with hA hB; exact hB.symm))
      | (simp at h)

theorem verifyAfterGate_replay (env : VerifyEnv) (store : Store)
    (p : TargetChainParam) (s' : Store)
    (h : verifyAfterGate env store = (.ok p, s')) :
    (verifyAfterGate env s').1 = .error .alreadyExist := by
  obtain ⟨tx, mb, htx, hpf, hmem, _, hs'⟩ := verifyAfterGate_ok env store p s' h
  subst hs'
  simp [verifyAfterGate, htx, hpf, hmem, storePut]

theorem verifyBtcTx_ok_parts (env : VerifyEnv) (h : Nat) (s : Store)
    (p : TargetChainParam) (s' : Store)
    (hrun : verifyBtcTx env h s = (.ok p, s')) :
    ∃ bh sc, env.besth = some bh ∧ env.sideChain = some sc ∧
      ¬ (u32sub bh h < u32OfU64dec sc.blocksToWait) ∧
      verifyAfterGate env s = (.ok p, s') := by
  rcases hb : env.besth with _ | bh <;>
    rcases hsc : env.sideChain with _ | sc <;>
    simp only [verifyBtcTx, hb, hsc] at hrun
  · exact absurd hrun (by simp)
  · exact absurd hrun (by simp)
  · exact absurd hrun (by simp)
  · split_ifs at hrun with hg
    · exact absurd hrun (by simp)
    · exact ⟨bh, sc, rfl, rfl, hg, hrun⟩

theorem verifyBtcTx_error_store (env : VerifyEnv) (h : Nat) (s : Store) (e : VErr)
    (herr : (verifyBtcTx env h s).1 = .error e) :
    (verifyBtcTx env h s).2 = s := by
  rcases hb : env.besth with _ | bh <;>
    rcases hsc : env.sideChain with _ | sc <;>
    simp only [verifyBtcTx, hb, hsc] at herr ⊢ <;>
    (try split_ifs at herr ⊢) <;>
    first
      | rfl
      | (exact verifyAfterGate_error_store env s e herr)

theorem verifyBtcTx_notConfirmed_iff (env : VerifyEnv) (h : Nat) (s : Store)
    (bh : Nat) (sc : SideChain)
    (hb : env.besth = some bh) (hsc : env.sideChain = some sc) :
    ((verifyBtcTx env h s).1 = .error .notConfirmed ↔
      u32sub bh h < u32OfU64dec sc.blocksToWait) := by
  simp only [verifyBtcTx, hb, hsc]
  split_ifs with hg
  · simp [hg]
  · simp only [hg, iff_false]
    exact verifyAfterGate_ne_notConfirmed env s

/-- Claim C1: the first `verifyBtcTx` call that passes all validations writes the
single-byte sentinel `[1]` under the replay key of the txid (which was not
set before); a second call on the same `(proof, tx)` pair then fails with the
"transaction already exist" error; and whenever a call fails with any error,
the store is left unchanged — the sentinel is written only after every
validation has succeeded. -/
theorem c1_replay_at_most_once (env : VerifyEnv) (h : Nat) (s : Store)
    (p : TargetChainParam) (s' : Store)
    (hrun : verifyBtcTx env h s = (.ok p, s')) :
    (∃ tx, env.decodedTx = some tx ∧ s' (replayKey tx.txid) = some [1] ∧
      s (replayKey tx.txid) ≠ some [1]) ∧
    (verifyBtcTx env h s').1 = .error .alreadyExist ∧
    (∀ (s0 : Store) (e : VErr),
      (verifyBtcTx env h s0).1 = .error e → (verifyBtcTx env h s0).2 = s0) := by
  obtain ⟨bh, sc, hb, hsc, hg, hag⟩ := verifyBtcTx_ok_parts env h s p s' hrun
  obtain ⟨tx, mb, htx, hpf, hmem, hfresh, hs'⟩ := verifyAfterGate_ok env s p s' hag
  refine ⟨⟨tx, htx, ?_, hfresh⟩, ?_, ?_⟩
  · simp [hs', storePut]
  · simp only [verifyBtcTx, hb, hsc]
    rw [if_neg hg]
    exact verifyAfterGate_replay env s p s' hag
  · intro s0 e he
    exact verifyBtcTx_error_store env h s0 e he

/-- Claim C2: with the oracle height and side-chain record available, and heights
in the normal (non-wrapping) range, `verifyBtcTx` fails with the
"not confirmed" error exactly when `currentHeight - claimedHeight <
BlocksToWait - 1`; for `BlocksToWait = 6` it is rejected exactly when the
difference is `< 5`, hence passes the gate at the boundary `= 5`. -/
theorem c2_confirmation_gate (env : VerifyEnv) (h : Nat) (s : Store)
    (bh : Nat) (sc : SideChain)
    (hb : env.besth = some bh) (hsc : env.sideChain = some sc)
    (hbh : bh < 2 ^ 32) (hh : h ≤ bh)
    (hbw1 : 1 ≤ sc.blocksToWait) (hbw2 : sc.blocksToWait - 1 < 2 ^ 32) :
    ((verifyBtcTx env h s).1 = .error .notConfirmed ↔
      bh - h < sc.blocksToWait - 1) ∧
    (sc.blocksToWait = 6 →
      ((verifyBtcTx env h s).1 = .error .notConfirmed ↔ bh - h < 5)) := by
  have hiff := verifyBtcTx_notConfirmed_iff env h s bh sc hb hsc
  have hsub : u32sub bh h = bh - h := by
    unfold u32sub
    omega
  have hdec : u32OfU64dec sc.blocksToWait = sc.blocksToWait - 1 := by
    unfold u32OfU64dec
    omega
  rw [hsub, hdec] at hiff
  refine ⟨hiff, fun h6 => ?_⟩
  rw [hiff, h6]

def emptyStore : Store := fun _ => none

def c2Env : VerifyEnv :=
  { besth := some 100, sideChain := some ⟨6⟩, decodedTx := none,
    decodedProof := none, outputsOk := false, resolved := none,
    rootCalc := none, badTreeFlag := false, matchesLen := 0, header := none }

/-- Witness for `C2` at `currentHeight = 100`, `claimedHeight = 95`,
`BlocksToWait = 6`: the boundary difference `5` passes the gate. -/
theorem c2_confirmation_gate_witness :
    ((verifyBtcTx c2Env 95 emptyStore).1 = .error .notConfirmed ↔
      100 - 95 < (6 : Nat) - 1) ∧
    ((6 : Nat) = 6 →
      ((verifyBtcTx c2Env 95 emptyStore).1 = .error .notConfirmed ↔
        100 - 95 < 5)) := by
  have := c2_confirmation_gate c2Env 95 emptyStore 100 ⟨6⟩ rfl rfl
    (by decide) (by decide) (by decide) (by decide)
  exact this

def c1Env : VerifyEnv :=
  { besth := some 100, sideChain := some ⟨6⟩, decodedTx := some ⟨[7]⟩,
    decodedProof := some ⟨[[7]]⟩, outputsOk := true,
    resolved := some ⟨2, "addr", 5⟩, rootCalc := some [9],
    badTreeFlag := false, matchesLen := 1, header := some ⟨[9]⟩ }

def c1Param : TargetChainParam := ⟨2, "addr", 5⟩

def c1Store2 : Store := storePut emptyStore (replayKey [7]) [1]

/-- Witness for `C1`: a concrete fully-valid first call succeeds, and the
replayed second call fails with "transaction already exist". -/
theorem c1_replay_at_most_once_witness :
    (verifyBtcTx c1Env 90 c1Store2).1 = .error .alreadyExist := by
  have hrun : verifyBtcTx c1Env 90 emptyStore = (.ok c1Param, c1Store2) := rfl
  exact (c1_replay_at_most_once c1Env 90 emptyStore c1Param c1Store2 hrun).2.1

def c10Env : VerifyEnv :=
  { besth := some 0, sideChain := some ⟨3⟩, decodedTx := none,
    decodedProof := none, outputsOk := false, resolved := none,
    rootCalc := none, badTreeFlag := false, matchesLen := 0, header := none }

/-- Counterexample to `C10` as stated: with the oracle at height `0`,
`claimedHeight = 2^32 - 1 > 0` and `BlocksToWait = 3 ≥ 1`, the wrapped
`uint32` difference is `1 < uint32(3-1) = 2`, so the gate *rejects* the
proof as unconfirmed instead of passing. -/
theorem c10_future_height_counterexample :
    (0 : Nat) < 4294967295 ∧ (1 : Nat) ≤ 3 ∧
      (verifyBtcTx c10Env 4294967295 emptyStore).1 = .error .notConfirmed := by
  refine ⟨by decide, by decide, ?_⟩
  rfl

/-- Claim C10 amended: for a claimed height strictly above the oracle height the
`uint32` subtraction wraps to `2^32 - (claimedHeight - currentHeight)`, and
the confirmation gate passes (the call is not rejected as unconfirmed)
whenever that wrapped value is at least `BlocksToWait - 1`; it is not passed
for every future height and every `BlocksToWait ≥ 1`. -/
theorem c10_future_height_gate (env : VerifyEnv) (h : Nat) (s : Store)
    (bh : Nat) (sc : SideChain)
    (hb : env.besth = some bh) (hsc : env.sideChain = some sc)
    (hbh : bh < 2 ^ 32) (hh : h < 2 ^ 32) (hfut : bh < h)
    (hbw1 : 1 ≤ sc.blocksToWait) (hbw2 : sc.blocksToWait - 1 < 2 ^ 32)
    (hroom : sc.blocksToWait - 1 ≤ 2 ^ 32 - (h - bh)) :
    (verifyBtcTx env h s).1 ≠ .error .notConfirmed := by
  intro hcon
  rw [verifyBtcTx_notConfirmed_iff env h s bh sc hb hsc] at hcon
  have hsub : u32sub bh h = 2 ^ 32 - (h - bh) := by
    unfold u32sub
    omega
  have hdec : u32OfU64dec sc.blocksToWait = sc.blocksToWait - 1 := by
    unfold u32OfU64dec
    omega
  rw [hsub, hdec] at hcon
  omega

def c10EnvB : VerifyEnv :=
  { besth := some 10, sideChain := some ⟨6⟩, decodedTx := none,
    decodedProof := none, outputsOk := false, resolved := none,
    rootCalc := none, badTreeFlag := false, matchesLen := 0, header := none }

/-- Witness for the amended `C10`: oracle at height `10`, claimed height `11`
(one block in the future), `BlocksToWait = 6`: the gate passes. -/
theorem c10_future_height_gate_witness :
    (verifyBtcTx c10EnvB 11 emptyStore).1 ≠ .error .notConfirmed := by
  exact c10_future_height_gate c10EnvB 11 emptyStore 10 ⟨6⟩ rfl rfl
    (by decide) (by decide) (by decide) (by decide) (by decide) (by decide)

/-! ## Cross-chain transaction builder model (`makeBtcTx`) -/

/-- Value of `btcutil.MaxSatoshi`: `21e6 * 1e8` satoshi. -/
def maxSatoshi : Int := 2100000000000000

/-- Error kinds of `makeBtcTx`, one per distinct `fmt.Errorf` return on the
paths relevant to the claims. -/
inductive BErr where
  | noAmount
  | wrongAmount (i : String) (a : Int)
  | sumOverflow
  | scriptErr
  | utxoErr
  | utxoNotFound
  | notEnoughUtxos
deriving DecidableEq, Repr

/-- The `for i, a := range amounts` loop of `makeBtcTx`: reject any amount
`a ≤ 0` or `a > MaxSatoshi`, and accumulate `amountSum += a` in wrapping
`int64` arithmetic. -/
def sumLoop : List (String × Int) → Int → Except BErr Int
  | [], acc => .ok acc
  | (i, a) :: rest, acc =>
    if a ≤ 0 ∨ a > maxSatoshi then .error (.wrongAmount i a)
    else sumLoop rest (i64wrap (acc + a))

/-- The amount-validation stage of `makeBtcTx`: reject an empty map, run the
per-amount loop, then reject if the accumulated (`int64`-wrapped) total
exceeds `MaxSatoshi`. -/
def validateAmounts (amounts : List (String × Int)) : Except BErr Int :=
  if amounts.length = 0 then .error .noAmount
  else
    match sumLoop amounts 0 with
    | .error e => .error e
    | .ok s => if s > maxSatoshi then .error .sumOverflow else .ok s

/-- The unsigned transaction assembled by the builder. -/
structure MadeTx where
  inputs : List Nat
  outputs : List (String × Int)
deriving DecidableEq, Repr

/-- Destination label of the change output paying back to the custody
script address. -/
def changeMarker : String := "custody-change"

/-- Modelled from the spec: `getUnsignedTx` is not under `src/` (only its
caller `makeBtcTx` is).  Per §4.2 step 6 it assembles one input per selected
output, one output per destination address, and one change output back to
the custody address if `change > 0`. -/
def getUnsignedTx (txIns : List Nat) (amounts : List (String × Int))
    (change : Int) : MadeTx :=
  { inputs := txIns,
    outputs := amounts ++ (if change > 0 then [(changeMarker, change)] else []) }

/-- Per-call environment of `makeBtcTx`: whether the multisig-script and
address derivation succeed, the UTXO oracle response `(txIns, sum)` (`none`
models an oracle error), and the package fee constant `FEE`. -/
structure BuildEnv where
  scriptOk : Bool
  utxos : Option (List Nat × Int)
  fee : Int
deriving DecidableEq, Repr

/-- Model of `makeBtcTx`: validate the amounts, derive the custody script/address,
query the UTXO oracle, require a positive total and nonempty input set,
compute `change = sum - amountSum - FEE` in `int64` arithmetic, reject a
negative change, then assemble (and persist) the unsigned transaction. -/
def makeBtcTx (env : BuildEnv) (amounts : List (String × Int)) :
    Except BErr MadeTx :=
  match validateAmounts amounts with
  | .error e => .error e
  | .ok asum =>
    if env.scriptOk then
      match env.utxos with
      | none => .error .utxoErr
      | some (txIns, sum) =>
        if sum ≤ 0 ∨ txIns.length = 0 then .error .utxoNotFound
        else
          if i64wrap (i64wrap (sum - asum) - env.fee) < 0 then
            .error .notEnoughUtxos
          else
            .ok (getUnsignedTx txIns amounts (i64wrap (i64wrap (sum - asum) - env.fee)))
    else .error .scriptErr

/-- True mathematical sum of the requested amounts. -/
def trueSum (amounts : List (String × Int)) : Int :=
  (amounts.map Prod.snd).sum

/-- The `int64`-wrapped running total actually computed by the loop. -/
def wrappedSum (amounts : List (String × Int)) : Int :=
  amounts.foldl (fun acc p => i64wrap (acc + p.2)) 0

/-- Total value paid out by the assembled transaction. -/
def outputsTotal (t : MadeTx) : Int :=
  (t.outputs.map Prod.snd).sum

theorem sumLoop_append (xs ys : List (String × Int)) (acc : Int) :
    sumLoop (xs ++ ys) acc =
      match sumLoop xs acc with
      | .error e => .error e
      | .ok s => sumLoop ys s := by
  induction xs generalizing acc with
  | nil => rfl
  | cons p rest ih =>
    rcases p with ⟨i, a⟩
    simp only [List.cons_append, sumLoop]
    split_ifs with hbad
    · rfl
    · exact ih (i64wrap (acc + a))

theorem sumLoop_replicate (n : Nat) (i : String) (c : Int) (z : Int)
    (hc0 : 0 < c) (hcm : c ≤ maxSatoshi) :
    sumLoop (List.replicate n (i, c)) (i64wrap z) = .ok (i64wrap (z + n * c)) := by
  induction n generalizing z with
  | zero => simp [sumLoop]
  | succ m ih =>
    simp only [List.replicate_succ, sumLoop]
    rw [if_neg (by omega)]
    rw [i64wrap_add_left]
    rw [ih (z + c)]
    congr 1
    push_cast
    ring_nf

theorem sumLoop_ok_iff (xs : List (String × Int)) (acc s : Int) :
    sumLoop xs acc = .ok s ↔
      ((∀ p ∈ xs, 0 < p.2 ∧ p.2 ≤ maxSatoshi) ∧
        s = xs.foldl (fun a p => i64wrap (a + p.2)) acc) := by
  induction xs generalizing acc with
  | nil =>
    simp only [sumLoop, List.foldl_nil, List.not_mem_nil]
    constructor
    · intro h
      injection h with h
      exact ⟨by simp, h.symm⟩
    · rintro ⟨-, rfl⟩
      rfl
  | cons p rest ih =>
    rcases p with ⟨i, a⟩
    simp only [sumLoop, List.foldl_cons, List.mem_cons]
    split_ifs with hbad
    · constructor
      · intro h
        cases h
      · rintro ⟨hval, -⟩
        have := hval (i, a) (Or.inl rfl)
        simp at this
        omega
    · rw [ih (i64wrap (acc + a))]
      constructor
      · rintro ⟨hval, rfl⟩
        refine ⟨?_, rfl⟩
        rintro q (rfl | hq)
        · simp
          omega
        · exact hval q hq
      · rintro ⟨hval, rfl⟩
        exact ⟨fun q hq => hval q (Or.inr hq), rfl⟩

theorem sumLoop_repl_tail (n : Nat) (i j : String) (c r z : Int)
    (hc0 : 0 < c) (hcm : c ≤ maxSatoshi) (hr0 : 0 < r) (hrm : r ≤ maxSatoshi) :
    sumLoop (List.replicate n (i, c) ++ [(j, r)]) (i64wrap z) =
      .ok (i64wrap (z + n * c + r)) := by
  rw [sumLoop_append, sumLoop_replicate n i c z hc0 hcm]
  show sumLoop [(j, r)] (i64wrap (z + n * c)) = .ok (i64wrap (z + n * c + r))
  simp only [sumLoop]
  rw [if_neg (by omega), i64wrap_add_left]

/-- The adversarial input defeating the overflow check: 8784 amounts of
`MaxSatoshi` plus one amount of `2^64 - 8784 * MaxSatoshi`; every amount is
individually valid and the true sum is exactly `2^64`. -/
def c8Amounts : List (String × Int) :=
  List.replicate 8784 ("a", maxSatoshi) ++ [("b", 344073709551616)]

theorem c8_sumLoop_eval : sumLoop c8Amounts 0 = .ok 0 := by
  have hz : i64wrap 0 = 0 := by decide
  have h := sumLoop_repl_tail 8784 "a" "b" maxSatoshi 344073709551616 0
    (by decide) (by decide) (by decide) (by decide)
  rw [hz] at h
  rw [c8Amounts, h]
  congr 1

theorem c8_validate_eval : validateAmounts c8Amounts = .ok 0 := by
  have hlen : c8Amounts.length = 8785 := by
    rw [c8Amounts, List.length_append, List.length_replicate]
    rfl
  unfold validateAmounts
  rw [if_neg (by rw [hlen]; decide), c8_sumLoop_eval]
  show (if (0 : Int) > maxSatoshi then Except.error BErr.sumOverflow else Except.ok 0) = .ok 0
  rw [if_neg (by decide)]

theorem makeBtcTx_ok_eval (env : BuildEnv) (amounts : List (String × Int))
    (asum : Int) (txIns : List Nat) (sum : Int)
    (hval : validateAmounts amounts = .ok asum) (hs : env.scriptOk = true)
    (hu : env.utxos = some (txIns, sum))
    (hpos : ¬ (sum ≤ 0 ∨ txIns.length = 0))
    (hch : ¬ i64wrap (i64wrap (sum - asum) - env.fee) < 0) :
    makeBtcTx env amounts =
      .ok (getUnsignedTx txIns amounts (i64wrap (i64wrap (sum - asum) - env.fee))) := by
  simp only [makeBtcTx, hval, hs, hu, if_true]
  rw [if_neg hpos, if_neg hch]

theorem makeBtcTx_noUtxo_eval (env : BuildEnv) (amounts : List (String × Int))
    (asum : Int) (txIns : List Nat) (sum : Int)
    (hval : validateAmounts amounts = .ok asum) (hs : env.scriptOk = true)
    (hu : env.utxos = some (txIns, sum))
    (hpos : sum ≤ 0 ∨ txIns.length = 0) :
    makeBtcTx env amounts = .error .utxoNotFound := by
  simp only [makeBtcTx, hval, hs, hu, if_true]
  rw [if_pos hpos]

theorem makeBtcTx_negChange_eval (env : BuildEnv) (amounts : List (String × Int))
    (asum : Int) (txIns : List Nat) (sum : Int)
    (hval : validateAmounts amounts = .ok asum) (hs : env.scriptOk = true)
    (hu : env.utxos = some (txIns, sum))
    (hpos : ¬ (sum ≤ 0 ∨ txIns.length = 0))
    (hch : i64wrap (i64wrap (sum - asum) - env.fee) < 0) :
    makeBtcTx env amounts = .error .notEnoughUtxos := by
  simp only [makeBtcTx, hval, hs, hu, if_true]
  rw [if_neg hpos, if_pos hch]

def c8Env : BuildEnv := { scriptOk := true, utxos := some ([1], 10000), fee := 1000 }

/-- Counterexample to `C8` as stated: `c8Amounts` has true mathematical sum
exactly `2^64 > MaxSatoshi`, every individual amount is valid, yet the
`int64` running total wraps to `0`, the sum check passes, and the builder
succeeds instead of rejecting the input. -/
theorem c8_sum_overflow_counterexample :
    trueSum c8Amounts = 2 ^ 64 ∧ maxSatoshi < 2 ^ 64 ∧
      validateAmounts c8Amounts = .ok 0 ∧
      makeBtcTx c8Env c8Amounts = .ok (getUnsignedTx [1] c8Amounts 9000) := by
  refine ⟨?_, by decide, c8_validate_eval, ?_⟩
  · simp only [trueSum, c8Amounts, List.map_append, List.map_replicate, List.sum_append]
    rw [List.sum_replicate]
    simp only [List.map_cons, List.map_nil, List.sum_cons, List.sum_nil]
    norm_num [maxSatoshi]
  · have h := makeBtcTx_ok_eval c8Env c8Amounts 0 [1] 10000 c8_validate_eval rfl rfl
      (by decide) (by decide)
    rw [h, show i64wrap (i64wrap ((10000 : Int) - 0) - c8Env.fee) = 9000 from by decide]

/-- Claim C8 amended: `makeBtcTx` rejects an empty destination map, rejects any
individual amount `a ≤ 0` or `a > MaxSatoshi`, and rejects when the `int64`-
wrapped running total of the amounts exceeds `MaxSatoshi` — but the sum
check is applied to the wrapped total, not the true mathematical sum, so an
input of at least 8785 individually-valid amounts whose true sum reaches
`2^64` wraps past the check. -/
theorem c8_amount_validation (env : BuildEnv) (amounts : List (String × Int)) :
    (amounts = [] → makeBtcTx env amounts = .error .noAmount) ∧
    (∀ s, validateAmounts amounts = .ok s ↔
      (amounts ≠ [] ∧ (∀ p ∈ amounts, 0 < p.2 ∧ p.2 ≤ maxSatoshi) ∧
        s = wrappedSum amounts ∧ s ≤ maxSatoshi)) := by
  constructor
  · rintro rfl
    rfl
  · intro s
    unfold validateAmounts
    split_ifs with hlen
    · have hnil : amounts = [] := List.length_eq_zero.mp hlen
      subst hnil
      simp
    · have hne : amounts ≠ [] := fun hcon => hlen (by simp [hcon])
      rcases hsl : sumLoop amounts 0 with e | s0
      · simp only [hsl]
        constructor
        · intro hcon
          cases hcon
        · rintro ⟨-, hval, rfl, -⟩
          have := (sumLoop_ok_iff amounts 0 (wrappedSum amounts)).mpr ⟨hval, rfl⟩
          rw [hsl] at this
          cases this
      · have hs0 := (sumLoop_ok_iff amounts 0 s0).mp hsl
        simp only [hsl]
        split_ifs with hover
        · constructor
          · intro hcon
            cases hcon
          · rintro ⟨-, -, rfl, hb⟩
            rw [show wrappedSum amounts = s0 from hs0.2.symm] at hb
            omega
        · constructor
          · intro hok
            injection hok with hok
            subst hok
            exact ⟨hne, hs0.1, hs0.2, by omega⟩
          · rintro ⟨-, -, rfl, -⟩
            rw [show wrappedSum amounts = s0 from hs0.2.symm]

/-- Witness for the amended `C8` at the singleton input `{"x": 5}`. -/
theorem c8_amount_validation_witness : validateAmounts [("x", (5 : Int))] = .ok 5 := by
  refine ((c8_amount_validation c8Env [("x", 5)]).2 5).mpr ⟨by decide, ?_, by decide, by decide⟩
  intro p hp
  rw [List.mem_singleton] at hp
  subst hp
  decide

def c7Amounts : List (String × Int) := [("addrA", 500000)]

def c7EnvA : BuildEnv := { scriptOk := true, utxos := some ([1], 400000), fee := 1000 }

def c7EnvB : BuildEnv := { scriptOk := true, utxos := some ([1], 600000), fee := 1000 }

/-- Claim C7: once the amounts validate and the custody script derives, the
builder fails with "utxo not found" when the oracle returns no outputs or a
non-positive total, fails with "not enough utxos" whenever the computed
change `sum - amountSum - FEE` is negative (never short-paying), and in the
spec's concrete scenario (amounts `{"addrA": 500000}`, fee `1000`) fails
with UTXOs totalling `400000` and succeeds with UTXOs totalling `600000`,
paying out exactly `500000 + 99000`. -/
theorem c7_builder_funds (env : BuildEnv) (amounts : List (String × Int))
    (asum : Int)
    (hval : validateAmounts amounts = .ok asum) (hs : env.scriptOk = true) :
    (∀ txIns sum, env.utxos = some (txIns, sum) → sum ≤ 0 ∨ txIns = [] →
      makeBtcTx env amounts = .error .utxoNotFound) ∧
    (∀ txIns sum, env.utxos = some (txIns, sum) →
      i64wrap (i64wrap (sum - asum) - env.fee) < 0 → ¬ (sum ≤ 0 ∨ txIns = []) →
      makeBtcTx env amounts = .error .notEnoughUtxos) ∧
    makeBtcTx c7EnvA c7Amounts = .error .notEnoughUtxos ∧
    makeBtcTx c7EnvB c7Amounts = .ok (getUnsignedTx [1] c7Amounts 99000) ∧
    outputsTotal (getUnsignedTx [1] c7Amounts 99000) = 500000 + 99000 := by
  refine ⟨?_, ?_, ?_, ?_, by decide⟩
  · intro txIns sum hu hcond
    refine makeBtcTx_noUtxo_eval env amounts asum txIns sum hval hs hu ?_
    rcases hcond with hc | hc
    · exact Or.inl hc
    · exact Or.inr (by simp [hc])
  · intro txIns sum hu hch hcond
    refine makeBtcTx_negChange_eval env amounts asum txIns sum hval hs hu ?_ hch
    intro hcon
    apply hcond
    rcases hcon with hc | hc
    · exact Or.inl hc
    · exact Or.inr (List.length_eq_zero.mp hc)
  · exact makeBtcTx_negChange_eval c7EnvA c7Amounts 500000 [1] 400000
      rfl rfl rfl (by decide) (by decide)
  · have h := makeBtcTx_ok_eval c7EnvB c7Amounts 500000 [1] 600000
      rfl rfl rfl (by decide) (by decide)
    rw [h, show i64wrap (i64wrap ((600000 : Int) - 500000) - c7EnvB.fee) = 99000 from by decide]

/-- Witness for `C7`: the concrete insufficient-funds call fails and the
successful transaction pays out exactly `500000 + 99000`. -/
theorem c7_builder_funds_witness :
    makeBtcTx c7EnvA c7Amounts = .error .notEnoughUtxos ∧
    outputsTotal (getUnsignedTx [1] c7Amounts 99000) = 500000 + 99000 := by
  have h := c7_builder_funds c7EnvA c7Amounts 500000 rfl rfl
  exact ⟨h.2.2.1, h.2.2.2.2⟩

/-! ## Governance node-manager model -/

instance {ε α : Type} [DecidableEq ε] [DecidableEq α] : DecidableEq (Except ε α) :=
  fun x y =>
    match x, y with
    | .error a, .error b =>
      if h : a = b then isTrue (by rw [h]) else isFalse (fun hc => h (Except.error.inj hc))
    | .error _, .ok _ => isFalse (fun hc => Except.noConfusion hc)
    | .ok _, .error _ => isFalse (fun hc => Except.noConfusion hc)
    | .ok a, .ok b =>
      if h : a = b then isTrue (by rw [h]) else isFalse (fun hc => h (Except.ok.inj hc))

/-- Peer status enum (`CandidateStatus`, `ConsensusStatus`, `QuitingStatus`,
`BlackStatus`). -/
inductive Status where
  | candidate
  | consensus
  | quiting
  | black
deriving DecidableEq, Repr

/-- Model of `PeerPoolItem`. -/
structure PeerPoolItem where
  index : Nat
  peerPubkey : String
  address : List Nat
  status : Status
  pos : Nat
  lockPos : Nat
deriving DecidableEq, Repr

/-- Go map assignment `m[k] = v` on an association-list encoding: the new
binding shadows (replaces) any previous binding of `k`. -/
def aput {α : Type} (m : List (String × α)) (k : String) (v : α) :
    List (String × α) :=
  (k, v) :: m.filter (fun kv => ¬ (kv.1 = k))

/-- Go map lookup `m[k]`. -/
def alookup {α : Type} (m : List (String × α)) (k : String) : Option α :=
  (m.find? (fun kv => kv.1 = k)).map Prod.snd

/-- Model of `PeerPoolMap.PeerPoolMap`. -/
abbrev PeerPoolMap := List (String × PeerPoolItem)

/-- The `Status == CandidateStatus || Status == ConsensusStatus` predicate
counted by `ApproveCandidate`, `QuitNode` and `UpdateConfig`. -/
def isActive (it : PeerPoolItem) : Bool :=
  it.status = Status.candidate ∨ it.status = Status.consensus

/-- The `num` computed by the counting loops: number of peers with status
Candidate or Consensus. -/
def activeNum (m : PeerPoolMap) : Nat :=
  m.countP (fun kv => isActive kv.2)

/-- Model of `Configuration` (VBFT protocol constants). -/
structure Configuration where
  n : Nat
  c : Nat
  k : Nat
  l : Nat
  blockMsgDelay : Nat
  hashMsgDelay : Nat
  peerHandshakeTimeout : Nat
  maxBlockChangeView : Nat
deriving DecidableEq, Repr

/-- Model of `PreConfig`: a staged configuration tagged with the view it was staged
at; an absent record is the Go zero value (`SetView = 0`). -/
structure PreConfig where
  configuration : Configuration
  setView : Nat
deriving DecidableEq, Repr

/-- Model of `GlobalParam`. -/
structure GlobalParam where
  minInitStake : Nat
  candidateNum : Nat
deriving DecidableEq, Repr

/-- A pending candidacy application (`RegisterPeerParam` persisted under the
`peerApply` key). -/
structure ApplyItem where
  peerPubkey : String
  address : List Nat
  pos : Nat
deriving DecidableEq, Repr

/-- The node-manager contract state visible to the modelled calls: the
current view, the peer pool map at that view, the active and staged
configurations, the global parameters, the `peerApply` records, the black
list, the stable `peerIndex` map and the `candidateIndex` allocator. -/
structure GovState where
  view : Nat
  pool : PeerPoolMap
  config : Configuration
  preConfig : PreConfig
  globalParam : GlobalParam
  applies : List (String × ApplyItem)
  blackList : List String
  peerIndex : List (String × Nat)
  candidateIndex : Nat
deriving DecidableEq, Repr

/-- Error kinds of the governance calls, one per distinct error return on
the modelled paths. -/
inductive GovErr where
  | addrParseErr
  | witnessErr
  | pubkeyFormatErr
  | inBlackList
  | alreadyApplied
  | alreadyInPool
  | notApplied
  | posTooSmall
  | candidateFull
  | notInPool
  | wrongStatus
  | notOwner
  | numLessK
  | transferErr
deriving DecidableEq, Repr

/-- Model of `QuitNode`: parse the owner address, check the witness, look the peer up
in the current-view pool, require Candidate/Consensus status and owner
match, take the staged configuration if one is staged for the current view
(otherwise the active one), and refuse the exit unless the active-peer count
strictly exceeds `K`; on success set the peer's status to Quitting. -/
def quitNode (wOk : Bool) (pubkey : String) (addr : List Nat) (s : GovState) :
    Except GovErr Unit × GovState :=
  if addr.length ≠ 20 then (.error .addrParseErr, s)
  else if ¬ wOk then (.error .witnessErr, s)
  else
    match alookup s.pool pubkey with
    | none => (.error .notInPool, s)
    | some item =>
      if item.status ≠ .consensus ∧ item.status ≠ .candidate then
        (.error .wrongStatus, s)
      else if ¬ (addr = item.address) then (.error .notOwner, s)
      else
        if activeNum s.pool ≤
            (if s.preConfig.setView = s.view then s.preConfig.configuration
             else s.config).k then
          (.error .numLessK, s)
        else
          (.ok (), { s with pool := aput s.pool pubkey { item with status := .quiting } })

/-- Model of `ApproveCandidate`: check the operator witness, require a pending
application, enforce `Pos ≥ MinInitStake`, reuse the stable index if one
exists (otherwise allocate `candidateIndex` and bump the allocator,
wrapping at `2^32`), reject when the Candidate/Consensus count has reached
`CandidateNum`, and otherwise promote the applicant to Candidate in the
current-view pool. -/
def approveCandidate (wOk : Bool) (pubkey : String) (s : GovState) :
    Except GovErr Unit × GovState :=
  if ¬ wOk then (.error .witnessErr, s)
  else
    match alookup s.applies pubkey with
    | none => (.error .notApplied, s)
    | some peer =>
      if peer.pos < s.globalParam.minInitStake then (.error .posTooSmall, s)
      else
        let idxAndState :=
          match alookup s.peerIndex pubkey with
          | some i => (i, s)
          | none =>
            (s.candidateIndex,
              { s with candidateIndex := (s.candidateIndex + 1) % 2 ^ 32,
                       peerIndex := aput s.peerIndex pubkey s.candidateIndex })
        if activeNum idxAndState.2.pool ≥ idxAndState.2.globalParam.candidateNum then
          (.error .candidateFull, idxAndState.2)
        else
          (.ok (),
            { idxAndState.2 with
              pool := aput idxAndState.2.pool pubkey
                { index := idxAndState.1, peerPubkey := peer.peerPubkey,
                  address := peer.address, status := .candidate,
                  pos := peer.pos, lockPos := 0 } })

/-- Model of `RegisterCandidate`: parse the owner address, check the witness and the
pubkey format, reject blacklisted, already-applied or already-pooled peers,
store the application record, then escrow the stake via the asset-transfer
collaborator (whose success is the `transferOk` input); a transfer failure
is reported after the application record was written to the call's buffer. -/
def registerCandidate (wOk pubkeyOk transferOk : Bool) (pubkey : String)
    (addr : List Nat) (pos : Nat) (s : GovState) : Except GovErr Unit × GovState :=
  if addr.length ≠ 20 then (.error .addrParseErr, s)
  else if ¬ wOk then (.error .witnessErr, s)
  else if ¬ pubkeyOk then (.error .pubkeyFormatErr, s)
  else if s.blackList.any (fun b => b = pubkey) then (.error .inBlackList, s)
  else
    match alookup s.applies pubkey with
    | some _ => (.error .alreadyApplied, s)
    | none =>
      if (alookup s.pool pubkey).isSome then (.error .alreadyInPool, s)
      else
        if ¬ transferOk then
          (.error .transferErr,
            { s with applies := aput s.applies pubkey ⟨pubkey, addr, pos⟩ })
        else
          (.ok (), { s with applies := aput s.applies pubkey ⟨pubkey, addr, pos⟩ })

/-- Model of `AddPos`: parse the owner address, check the witness, require pool
membership, Candidate/Consensus status and owner match, add the stake to
`Pos` (wrapping `uint64`), store the updated pool map, then escrow the
stake; a transfer failure is reported after the pool map was written to the
call's buffer. -/
def addPos (wOk transferOk : Bool) (pubkey : String) (addr : List Nat)
    (pos : Nat) (s : GovState) : Except GovErr Unit × GovState :=
  if addr.length ≠ 20 then (.error .addrParseErr, s)
  else if ¬ wOk then (.error .witnessErr, s)
  else
    match alookup s.pool pubkey with
    | none => (.error .notInPool, s)
    | some item =>
      if item.status ≠ .consensus ∧ item.status ≠ .candidate then
        (.error .wrongStatus, s)
      else if ¬ (addr = item.address) then (.error .notOwner, s)
      else
        if ¬ transferOk then
          (.error .transferErr, { s with
            pool := aput s.pool pubkey { item with pos := u64add item.pos pos } })
        else
          (.ok (), { s with
            pool := aput s.pool pubkey { item with pos := u64add item.pos pos } })

/-- Model of `ReducePos`: parse the owner address, check the witness, require pool
membership, Candidate/Consensus status and owner match, then move the
requested amount from `Pos` to `LockPos` in wrapping `uint64` arithmetic —
there is no check of the amount against the current stake. -/
def reducePos (wOk : Bool) (pubkey : String) (addr : List Nat) (pos : Nat)
    (s : GovState) : Except GovErr Unit × GovState :=
  if addr.length ≠ 20 then (.error .addrParseErr, s)
  else if ¬ wOk then (.error .witnessErr, s)
  else
    match alookup s.pool pubkey with
    | none => (.error .notInPool, s)
    | some item =>
      if item.status ≠ .consensus ∧ item.status ≠ .candidate then
        (.error .wrongStatus, s)
      else if ¬ (addr = item.address) then (.error .notOwner, s)
      else
        let item2 : PeerPoolItem :=
          { item with pos := u64sub item.pos pos, lockPos := u64add item.lockPos pos }
        (.ok (), { s with pool := aput s.pool pubkey item2 })

/-- Modelled from the spec: the native-call executor around the governance
contract is not under `src/`.  Per §5 a call's buffered `CacheDB` writes are
committed only when the call returns success, and discarded when it returns
an error ("a failed call must leave no partial writes"). -/
def runCall (f : GovState → Except GovErr Unit × GovState) (s : GovState) :
    Except GovErr Unit × GovState :=
  match f s with
  | (.ok u, s') => (.ok u, s')
  | (.error e, _) => (.error e, s)

/-- A sequence of `ApproveCandidate` calls (witness flag and pubkey each),
executed through the committing executor. -/
def runApproves (calls : List (Bool × String)) (s : GovState) : GovState :=
  calls.foldl (fun st cl => (runCall (approveCandidate cl.1 cl.2) st).2) s

theorem alookup_aput_self {α : Type} (m : List (String × α)) (k : String) (v : α) :
    alookup (aput m k v) k = some v := by
  simp [alookup, aput, List.find?]

theorem quitNode_eval (wOk : Bool) (pubkey : String) (addr : List Nat)
    (s : GovState) (item : PeerPoolItem)
    (h20 : addr.length = 20) (hw : wOk = true)
    (hlk : alookup s.pool pubkey = some item)
    (hst : item.status = .candidate ∨ item.status = .consensus)
    (had : addr = item.address) :
    quitNode wOk pubkey addr s =
      (if activeNum s.pool ≤
          (if s.preConfig.setView = s.view then s.preConfig.configuration
           else s.config).k
       then (.error .numLessK, s)
       else (.ok (), { s with
          pool := aput s.pool pubkey { item with status := .quiting } })) := by
  unfold quitNode
  rw [if_neg (by simp [h20]), if_neg (by simp [hw])]
  simp only [hlk]
  rw [if_neg (by rcases hst with h | h <;> simp [h])]
  rw [if_neg (by simp [had])]

/-- Claim C4 amended: under witness, membership, status and ownership checks,
`QuitNode` is rejected with "num of peers is less than K" exactly when the
pre-removal count of Candidate/Consensus peers is at or below the effective
`K` (equivalently, exactly when the resulting count after removal would fall
*strictly below* `K`, not "to or below" it), where the effective `K` comes
from a configuration staged for the current view if one is pending and
otherwise from the active configuration; when the guard passes, the peer's
status is set to Quitting. -/
theorem c4_quit_guard (wOk : Bool) (pubkey : String) (addr : List Nat)
    (s : GovState) (item : PeerPoolItem)
    (h20 : addr.length = 20) (hw : wOk = true)
    (hlk : alookup s.pool pubkey = some item)
    (hst : item.status = .candidate ∨ item.status = .consensus)
    (had : addr = item.address) :
    ((quitNode wOk pubkey addr s).1 = .error .numLessK ↔
      activeNum s.pool ≤
        (if s.preConfig.setView = s.view then s.preConfig.configuration
         else s.config).k) ∧
    ((if s.preConfig.setView = s.view then s.preConfig.configuration
      else s.config).k < activeNum s.pool →
      quitNode wOk pubkey addr s =
        (.ok (), { s with
          pool := aput s.pool pubkey { item with status := .quiting } })) := by
  rw [quitNode_eval wOk pubkey addr s item h20 hw hlk hst had]
  set kE := (if s.preConfig.setView = s.view then s.preConfig.configuration
    else s.config).k with hkE
  split_ifs with hg
  · exact ⟨by simp [hg], fun hlt => absurd hg (by omega)⟩
  · exact ⟨iff_of_false (by simp) hg, fun _ => rfl⟩

def addrA : List Nat := List.replicate 20 1

def mkPeer (pk : String) : PeerPoolItem :=
  { index := 0, peerPubkey := pk, address := addrA, status := .candidate,
    pos := 100, lockPos := 0 }

def cfg7 : Configuration :=
  { n := 8, c := 3, k := 7, l := 112, blockMsgDelay := 10000,
    hashMsgDelay := 10000, peerHandshakeTimeout := 10,
    maxBlockChangeView := 120000 }

def c4Pool : PeerPoolMap :=
  [("p1", mkPeer "p1"), ("p2", mkPeer "p2"), ("p3", mkPeer "p3"),
   ("p4", mkPeer "p4"), ("p5", mkPeer "p5"), ("p6", mkPeer "p6"),
   ("p7", mkPeer "p7"), ("p8", mkPeer "p8")]

def c4State : GovState :=
  { view := 1, pool := c4Pool, config := cfg7, preConfig := ⟨cfg7, 0⟩,
    globalParam := ⟨100, 49⟩, applies := [], blackList := [],
    peerIndex := [], candidateIndex := 9 }

/-- Counterexample to `C4` as stated: with `K = 7` and `8` active peers,
quitting succeeds even though the resulting count `7` falls *to* `K` — the
code rejects only when the resulting count would fall strictly below `K`. -/
theorem c4_quit_guard_counterexample :
    (quitNode true "p1" addrA c4State).1 = .ok () ∧
    activeNum (quitNode true "p1" addrA c4State).2.pool = c4State.config.k := by
  decide

/-- Witness for the amended `C4` at a state with `K = 7` and `8` active
peers. -/
theorem c4_quit_guard_witness :
    ((quitNode true "p1" addrA c4State).1 = .error .numLessK ↔
      activeNum c4State.pool ≤
        (if c4State.preConfig.setView = c4State.view then
          c4State.preConfig.configuration else c4State.config).k) :=
  (c4_quit_guard true "p1" addrA c4State (mkPeer "p1") (by decide) rfl
    (by decide) (by decide) (by decide)).1

def cfg10 : Configuration :=
  { n := 12, c := 4, k := 10, l := 160, blockMsgDelay := 10000,
    hashMsgDelay := 10000, peerHandshakeTimeout := 10,
    maxBlockChangeView := 120000 }

def c3Pool : PeerPoolMap :=
  [("p1", mkPeer "p1"), ("p2", mkPeer "p2"), ("p3", mkPeer "p3"),
   ("p4", mkPeer "p4"), ("p5", mkPeer "p5"), ("p6", mkPeer "p6"),
   ("p7", mkPeer "p7"), ("p8", mkPeer "p8"), ("p9", mkPeer "p9"),
   ("p10", mkPeer "p10")]

def c3State : GovState :=
  { view := 3, pool := c3Pool, config := cfg7, preConfig := ⟨cfg10, 3⟩,
    globalParam := ⟨100, 49⟩, applies := [], blackList := [],
    peerIndex := [], candidateIndex := 11 }

def c3StateNoStage : GovState := { c3State with preConfig := ⟨cfg10, 0⟩ }

/-- Counterexample to `C3` as stated: with active `K = 7`, `K = 10` staged at
the current view `3`, and `10` active peers, `QuitNode` is rejected by the
staged `K` before any `CommitDpos` — while the identical state without the
pending stage accepts the same call (`10 > 7`); so a staged configuration
does affect validation before the commit. -/
theorem c3_staged_config_counterexample :
    (quitNode true "p1" addrA c3State).1 = .error .numLessK ∧
    (quitNode true "p1" addrA c3StateNoStage).1 = .ok () ∧
    c3State.config.k < activeNum c3State.pool := by
  decide

/-- Claim C3 amended: a configuration staged via `UpdateConfig` at view `v` takes
effect on `QuitNode`'s peer-count guard immediately, while the view is still
`v`: the guard compares the active-peer count against the *staged* `K`, not
the old one. -/
theorem c3_staged_config_effective (wOk : Bool) (pubkey : String)
    (addr : List Nat) (s : GovState) (item : PeerPoolItem)
    (h20 : addr.length = 20) (hw : wOk = true)
    (hlk : alookup s.pool pubkey = some item)
    (hst : item.status = .candidate ∨ item.status = .consensus)
    (had : addr = item.address)
    (hstage : s.preConfig.setView = s.view) :
    ((quitNode wOk pubkey addr s).1 = .error .numLessK ↔
      activeNum s.pool ≤ s.preConfig.configuration.k) := by
  rw [quitNode_eval wOk pubkey addr s item h20 hw hlk hst had, if_pos hstage]
  split_ifs with hg
  · simp [hg]
  · exact iff_of_false (by simp) hg

/-- Witness for the amended `C3` at view `3` with `K = 10` staged for view
`3` over an active `K = 7`. -/
theorem c3_staged_config_effective_witness :
    ((quitNode true "p1" addrA c3State).1 = .error .numLessK ↔
      activeNum c3State.pool ≤ c3State.preConfig.configuration.k) :=
  c3_staged_config_effective true "p1" addrA c3State (mkPeer "p1") (by decide)
    rfl (by decide) (by decide) (by decide) (by decide)

/-- Claim C9: `ReducePos` performs no bound check of the reduction amount against
the current stake: for a Candidate/Consensus peer with matching owner, a
reduction strictly greater than the current `Pos` still succeeds, setting
`Pos` to `(Pos - amount) mod 2^64` (a huge wrapped value) and `LockPos` to
`(LockPos + amount) mod 2^64`. -/
theorem c9_reduce_pos_no_bound (wOk : Bool) (pubkey : String) (addr : List Nat)
    (pos : Nat) (s : GovState) (item : PeerPoolItem)
    (h20 : addr.length = 20) (hw : wOk = true)
    (hlk : alookup s.pool pubkey = some item)
    (hst : item.status = .candidate ∨ item.status = .consensus)
    (had : addr = item.address)
    (hgt : item.pos < pos) (hp : pos < 2 ^ 64) (hip : item.pos < 2 ^ 64)
    (hlp : item.lockPos < 2 ^ 64) :
    (reducePos wOk pubkey addr pos s).1 = .ok () ∧
    alookup (reducePos wOk pubkey addr pos s).2.pool pubkey =
      some { item with pos := (item.pos + 2 ^ 64 - pos) % 2 ^ 64,
                       lockPos := (item.lockPos + pos) % 2 ^ 64 } ∧
    (((item.pos + 2 ^ 64 - pos) % 2 ^ 64 : Nat) : Int) =
      ((item.pos : Int) - (pos : Int)) % 2 ^ 64 := by
  unfold reducePos
  rw [if_neg (by simp [h20]), if_neg (by simp [hw])]
  simp only [hlk]
  rw [if_neg (by rcases hst with h | h <;> simp [h])]
  rw [if_neg (by simp [had])]
  have h1 : u64sub item.pos pos = (item.pos + 2 ^ 64 - pos) % 2 ^ 64 := by
    unfold u64sub
    omega
  have h2 : u64add item.lockPos pos = (item.lockPos + pos) % 2 ^ 64 := rfl
  refine ⟨rfl, ?_, by omega⟩
  rw [alookup_aput_self, h1, h2]

def c9Item : PeerPoolItem :=
  { index := 0, peerPubkey := "q1", address := addrA, status := .candidate,
    pos := 100, lockPos := 0 }

def c9State : GovState :=
  { view := 1, pool := [("q1", c9Item)], config := cfg7,
    preConfig := ⟨cfg7, 0⟩, globalParam := ⟨100, 49⟩, applies := [],
    blackList := [], peerIndex := [], candidateIndex := 2 }

/-- Witness for `C9`: reducing `150` from a stake of `100` succeeds. -/
theorem c9_reduce_pos_no_bound_witness :
    (reducePos true "q1" addrA 150 c9State).1 = .ok () :=
  (c9_reduce_pos_no_bound true "q1" addrA 150 c9State c9Item (by decide) rfl
    (by decide) (by decide) (by decide) (by decide) (by decide) (by decide)
    (by decide)).1

theorem activeNum_aput_le (m : PeerPoolMap) (k : String) (v : PeerPoolItem) :
    activeNum (aput m k v) ≤ activeNum m + 1 := by
  unfold activeNum aput
  rw [List.countP_cons]
  have hf : List.countP (fun kv => isActive kv.2)
      (m.filter fun kv => ¬ (kv.1 = k)) ≤ List.countP (fun kv => isActive kv.2) m :=
    List.Sublist.countP_le _ (List.filter_sublist m)
  split_ifs <;> omega

theorem approveCandidate_cases (wOk : Bool) (pk : String) (s : GovState) :
    ((approveCandidate wOk pk s).1 = .ok () →
      ∃ item, activeNum s.pool < s.globalParam.candidateNum ∧
        (approveCandidate wOk pk s).2.pool = aput s.pool pk item ∧
        (approveCandidate wOk pk s).2.globalParam = s.globalParam) ∧
    (∀ e, (approveCandidate wOk pk s).1 = .error e →
      (approveCandidate wOk pk s).2.pool = s.pool ∧
      (approveCandidate wOk pk s).2.globalParam = s.globalParam) := by
  rcases hap : alookup s.applies pk with _ | peer <;>
    rcases hidx : alookup s.peerIndex pk with _ | i <;>
    simp only [approveCandidate, hap, hidx] <;>
    split_ifs <;>
    refine ⟨?_, ?_⟩ <;>
    intros <;>
    first
      | contradiction
      | (exact ⟨rfl, rfl⟩)
      | (refine ⟨_, ?_, rfl, rfl⟩; omega)

theorem runCall_error_eq (f : GovState → Except GovErr Unit × GovState)
    (s : GovState) (e : GovErr) (h : (f s).1 = .error e) :
    runCall f s = (.error e, s) := by
  unfold runCall
  rcases hq : f s with ⟨r, s2⟩
  have h' : r = .error e := by rw [hq] at h; exact h
  subst h'
  rfl

theorem runCall_ok_eq (f : GovState → Except GovErr Unit × GovState)
    (s : GovState) (h : (f s).1 = .ok ()) : runCall f s = f s := by
  unfold runCall
  rcases hq : f s with ⟨r, s2⟩
  have h' : r = .ok () := by rw [hq] at h; exact h
  subst h'
  rfl

theorem approve_runCall_preserves (wOk : Bool) (pk : String) (s : GovState)
    (hinv : activeNum s.pool ≤ s.globalParam.candidateNum) :
    activeNum (runCall (approveCandidate wOk pk) s).2.pool ≤
      (runCall (approveCandidate wOk pk) s).2.globalParam.candidateNum ∧
    (runCall (approveCandidate wOk pk) s).2.globalParam = s.globalParam := by
  rcases hr : (approveCandidate wOk pk s).1 with e | u
  · rw [runCall_error_eq _ _ _ hr]
    exact ⟨hinv, rfl⟩
  · cases u
    obtain ⟨item, hlt, hpool, hgp⟩ := (approveCandidate_cases wOk pk s).1 hr
    rw [runCall_ok_eq _ _ hr, hpool, hgp]
    have hle := activeNum_aput_le s.pool pk item
    exact ⟨by omega, rfl⟩

theorem runApproves_cons (cl : Bool × String) (rest : List (Bool × String))
    (s : GovState) :
    runApproves (cl :: rest) s =
      runApproves rest ((runCall (approveCandidate cl.1 cl.2) s).2) := rfl

/-- Claim C5: `ApproveCandidate` never lets the number of Candidate/Consensus
peers exceed `GlobalParam.CandidateNum`: whenever that count has reached
`CandidateNum` the call fails (with the "num of candidate node is full"
error when every earlier validation passed), a successful call grows the
count by at most one, and over any sequence of calls (executed through the
committing executor) the count stays at or below `CandidateNum` from any
state satisfying the invariant. -/
theorem c5_candidate_cap (s : GovState) (calls : List (Bool × String))
    (hinv : activeNum s.pool ≤ s.globalParam.candidateNum) :
    (∀ wOk pk, s.globalParam.candidateNum ≤ activeNum s.pool →
      ∃ e, (approveCandidate wOk pk s).1 = .error e) ∧
    (∀ pk peer, alookup s.applies pk = some peer →
      s.globalParam.minInitStake ≤ peer.pos →
      s.globalParam.candidateNum ≤ activeNum s.pool →
      (approveCandidate true pk s).1 = .error .candidateFull) ∧
    (∀ wOk pk, (approveCandidate wOk pk s).1 = .ok () →
      activeNum (approveCandidate wOk pk s).2.pool ≤ activeNum s.pool + 1) ∧
    (activeNum (runApproves calls s).pool ≤
        (runApproves calls s).globalParam.candidateNum ∧
      (runApproves calls s).globalParam = s.globalParam) := by
  refine ⟨?_, ?_, ?_, ?_⟩
  · intro wOk pk hfull
    rcases hr : (approveCandidate wOk pk s).1 with e | u
    · exact ⟨e, rfl⟩
    · cases u
      obtain ⟨item, hlt, -, -⟩ := (approveCandidate_cases wOk pk s).1 hr
      omega
  · intro pk peer hap hmin hfull
    rcases hidx : alookup s.peerIndex pk with _ | i <;>
      simp only [approveCandidate, hap, hidx] <;>
      rw [if_neg (by simp), if_neg (by omega), if_pos (by exact hfull)]
  · intro wOk pk hok
    obtain ⟨item, -, hpool, -⟩ := (approveCandidate_cases wOk pk s).1 hok
    rw [hpool]
    exact activeNum_aput_le s.pool pk item
  · revert hinv
    induction calls generalizing s with
    | nil => exact fun hinv => ⟨hinv, rfl⟩
    | cons cl rest ih =>
      intro hinv
      have hstep := approve_runCall_preserves cl.1 cl.2 s hinv
      have hrest := ih ((runCall (approveCandidate cl.1 cl.2) s).2) hstep.1
      rw [runApproves_cons]
      exact ⟨hrest.1, by rw [hrest.2, hstep.2]⟩

def c5State : GovState :=
  { view := 1, pool := [], config := cfg7, preConfig := ⟨cfg7, 0⟩,
    globalParam := ⟨100, 49⟩, applies := [("r1", ⟨"r1", addrA, 500⟩)],
    blackList := [], peerIndex := [], candidateIndex := 1 }

/-- Witness for `C5`: after one approval from an empty pool the active count
is still at or below `CandidateNum`. -/
theorem c5_candidate_cap_witness :
    activeNum (runApproves [(true, "r1")] c5State).pool ≤
      (runApproves [(true, "r1")] c5State).globalParam.candidateNum :=
  (c5_candidate_cap c5State [(true, "r1")] (by decide)).2.2.2.1

/-- Claim C6: every modelled governance call that returns an error leaves the
committed state unchanged — the executor (modelled from §5 of the spec)
discards the call's buffered writes on failure.  In particular, when the
stake-escrow transfer fails after `RegisterCandidate` has stored the
application record in its buffer, or after `AddPos` has stored the updated
peer pool map in its buffer, the buffered write exists but does not survive
the failed call. -/
theorem c6_error_no_write :
    (∀ (f : GovState → Except GovErr Unit × GovState) (s : GovState) (e : GovErr),
      (runCall f s).1 = .error e → (runCall f s).2 = s) ∧
    (∀ (pk : String) (addr : List Nat) (pos : Nat) (s : GovState),
      addr.length = 20 → s.blackList.any (fun b => b = pk) = false →
      alookup s.applies pk = none → alookup s.pool pk = none →
      (registerCandidate true true false pk addr pos s).1 = .error .transferErr ∧
      alookup (registerCandidate true true false pk addr pos s).2.applies pk =
        some ⟨pk, addr, pos⟩ ∧
      runCall (registerCandidate true true false pk addr pos) s =
        (.error .transferErr, s)) ∧
    (∀ (pk : String) (addr : List Nat) (pos : Nat) (s : GovState)
      (item : PeerPoolItem),
      addr.length = 20 → alookup s.pool pk = some item →
      (item.status = .candidate ∨ item.status = .consensus) →
      addr = item.address →
      (addPos true false pk addr pos s).1 = .error .transferErr ∧
      alookup (addPos true false pk addr pos s).2.pool pk =
        some { item with pos := u64add item.pos pos } ∧
      runCall (addPos true false pk addr pos) s = (.error .transferErr, s)) := by
  refine ⟨?_, ?_, ?_⟩
  · intro f s e h
    rcases hr : (f s).1 with e' | u
    · rw [runCall_error_eq f s e' hr]
    · rcases u
      rw [runCall_ok_eq f s hr] at h
      rw [hr] at h
      cases h
  · intro pk addr pos s h20 hbl hap hpool
    have heq : registerCandidate true true false pk addr pos s =
        (.error .transferErr,
          { s with applies := aput s.applies pk ⟨pk, addr, pos⟩ }) := by
      unfold registerCandidate
      rw [if_neg (by simp [h20]), if_neg (by simp), if_neg (by simp),
        if_neg (by simp [hbl])]
      simp only [hap]
      rw [if_neg (by simp [hpool]), if_pos (by simp)]
    refine ⟨by rw [heq], ?_, ?_⟩
    · rw [heq]
      exact alookup_aput_self _ _ _
    · rw [runCall_error_eq _ _ _ (by rw [heq])]
  · intro pk addr pos s item h20 hlk hst had
    have heq : addPos true false pk addr pos s =
        (.error .transferErr,
          { s with pool := aput s.pool pk { item with pos := u64add item.pos pos } }) := by
      unfold addPos
      rw [if_neg (by simp [h20]), if_neg (by simp)]
      simp only [hlk]
      rw [if_neg (by rcases hst with h | h <;> simp [h]), if_neg (by simp [had]),
        if_pos (by simp)]
    refine ⟨by rw [heq], ?_, ?_⟩
    · rw [heq]
      exact alookup_aput_self _ _ _
    · rw [runCall_error_eq _ _ _ (by rw [heq])]

def c6State : GovState :=
  { view := 1, pool := [], config := cfg7, preConfig := ⟨cfg7, 0⟩,
    globalParam := ⟨100, 49⟩, applies := [], blackList := [],
    peerIndex := [], candidateIndex := 1 }

/-- Witness for `C6`: a concrete `RegisterCandidate` whose escrow transfer
fails reports the error, and the committed state is exactly the initial
state. -/
theorem c6_error_no_write_witness :
    (registerCandidate true true false "r1" addrA 500 c6State).1 =
      .error .transferErr ∧
    runCall (registerCandidate true true false "r1" addrA 500) c6State =
      (.error .transferErr, c6State) := by
  have h := c6_error_no_write.2.1 "r1" addrA 500 c6State (by decide) (by decide)
    (by decide) (by decide)
  exact ⟨h.1, h.2.2⟩
